import Mathlib

/-!
Verification development for the HTTP transport layer of a SOAP client
(`src/http.ts`).  The TypeScript source is shallowly embedded: the
`Headers` object of the fetch standard is modelled as an association list
of lowercased header entries plus a separate list of plain JS "expando"
properties, Node's legacy `url.parse` is modelled for `scheme://` URLs,
`HttpClient.buildRequest` becomes a total function into `Except` (the
MTOM branch can throw a `TypeError`), `HttpClient.handleResponse`'s
envelope regular expression is modelled by an explicit character-level
matcher with JavaScript semantics (leftmost match, greedy `[\S\s]*`,
case-insensitive literals and backreference), and the asynchronous
`request` / `requestWrapper` / `ntlmHandshake` control flow is modelled
as event traces over the possible outcomes of the underlying exchanges.
-/

namespace Soap

/-! ### Generic character-list helpers -/

/-- ASCII-lowercase a string, character by character (the fetch `Headers`
class normalizes header names this way, and legacy `url.parse` lowercases
host names). -/
def lowerStr (s : String) : String := String.mk (s.data.map Char.toLower)

/-- Case-insensitive character comparison, as used by a JavaScript regex
with the `i` flag on ASCII letters. -/
def ciChar (a b : Char) : Bool := a.toLower = b.toLower

/-- Match the pattern `pat` case-insensitively at the start of `l`;
on success return the rest of `l` after the matched prefix. -/
def ciPrefix : List Char → List Char → Option (List Char)
  | [], l => some l
  | _ :: _, [] => none
  | p :: ps, c :: cs => if ciChar p c then ciPrefix ps cs else none

/-- Match the literal pattern `pat` at the start of `l`; on success
return the rest of `l` after the matched prefix. -/
def litPrefixRest : List Char → List Char → Option (List Char)
  | [], l => some l
  | _ :: _, [] => none
  | p :: ps, c :: cs => if p = c then litPrefixRest ps cs else none

/-- First (leftmost) occurrence of the literal pattern `pat` in `l`:
returns the part of `l` before the occurrence and the part after it. -/
def splitFirstAt (pat : List Char) : List Char → Option (List Char × List Char)
  | [] =>
    match litPrefixRest pat [] with
    | some r => some ([], r)
    | none => none
  | c :: rest =>
    match litPrefixRest pat (c :: rest) with
    | some r => some ([], r)
    | none => (splitFirstAt pat rest).map (fun p => (c :: p.1, p.2))

/-- Does the literal pattern `pat` occur anywhere in `l`
(JavaScript `String.prototype.indexOf(pat) > -1`)? -/
def hasSubB (pat l : List Char) : Bool := (splitFirstAt pat l).isSome

/-- Split `l` at the last occurrence of the character `ch`:
returns the parts before and after that occurrence. -/
def splitLastChar (ch : Char) : List Char → Option (List Char × List Char)
  | [] => none
  | c :: rest =>
    match splitLastChar ch rest with
    | some p => some (c :: p.1, p.2)
    | none => if c = ch then some ([], rest) else none

/-- Everything after the last occurrence of `ch` in `l` (the whole list
when `ch` does not occur); used to strip the userinfo part of a URL
authority at its `@`. -/
def afterLastChar (ch : Char) (l : List Char) : List Char :=
  match splitLastChar ch l with
  | some p => p.2
  | none => l

/-! ### The fetch `Headers` object

A WHATWG `Headers` object keeps an internal list of (lowercased name,
value) entries; `set` replaces an existing entry in place or appends,
`get` is case-insensitive.  A plain JavaScript property assignment
`headersObject[k] = v` does **not** touch the internal entry list: it
creates an expando property that every header iteration (`forEach`,
`new Headers(h)`) ignores.  Both facets are modelled. -/

/-- Replace the value of the entry with key `k` (keeping its position),
or append a new entry; `k` is expected to be already lowercased. -/
def setEntry : List (String × String) → String → String → List (String × String)
  | [], k, v => [(k, v)]
  | (k0, v0) :: rest, k, v =>
    if k0 = k then (k0, v) :: rest else (k0, v0) :: setEntry rest k v

/-- Look up the entry with key `k` (expected lowercased). -/
def lookupEntry : List (String × String) → String → Option String
  | [], _ => none
  | (k0, v0) :: rest, k => if k0 = k then some v0 else lookupEntry rest k

/-- Model of a fetch `Headers` instance: the internal header entry list
(lowercased names) plus any expando properties assigned with `obj[k] = v`
(case-sensitive names, invisible to header iteration). -/
structure HeadersObj where
  entries : List (String × String)
  props : List (String × String)
deriving Repr, DecidableEq

/-- `Headers.prototype.get` (case-insensitive; `null` for absent). -/
def hget (h : HeadersObj) (k : String) : Option String :=
  lookupEntry h.entries (lowerStr k)

/-- `Headers.prototype.set` (normalizes the name, replaces or appends). -/
def hset (h : HeadersObj) (k v : String) : HeadersObj :=
  { h with entries := setEntry h.entries (lowerStr k) v }

/-- Plain JavaScript property assignment on a `Headers` instance:
stores an expando property, leaving the header entries untouched. -/
def setProp (h : HeadersObj) (k v : String) : HeadersObj :=
  { h with props := setEntry h.props k v }

/-- Case-sensitive property lookup on the expando properties. -/
def lookupProp (h : HeadersObj) (k : String) : Option String :=
  lookupEntry h.props k

/-- The headers that actually reach the wire: `requestWrapper` builds
`new Headers(options.headers)` and iterates it, which exposes exactly the
internal entry list and never the expando properties. -/
def effectiveHeaders (h : HeadersObj) : List (String × String) := h.entries

/-! ### Node legacy `url.parse` (modelled for `scheme://...` URLs) -/

/-- Result of Node's legacy `url.parse` (the fields `buildRequest` reads). -/
structure ParsedUrl where
  protocol : Option String
  hostname : Option String
  port : Option String
  pathname : Option String
  search : Option String
  hash : Option String
deriving Repr, DecidableEq

/-- Character that ends the authority part of a URL. -/
def authEnd (c : Char) : Bool := c = '/' || c = '?' || c = '#'

/-- Model of Node's legacy `url.parse` for URLs of the shape
`scheme://[userinfo@]host[:port][path][?query][#fragment]`; the protocol
and hostname are lowercased and an explicit port is kept verbatim (legacy
`url.parse` does *not* strip a default port).  A string without `://` is
treated as a bare path, which is all `buildRequest` needs. -/
def urlParse (rurl : String) : ParsedUrl :=
  match splitFirstAt "://".data rurl.data with
  | none =>
    { protocol := none, hostname := none, port := none
      pathname := some rurl, search := none, hash := none }
  | some (schemeChars, rest) =>
    let protocol := lowerStr (String.mk schemeChars) ++ ":"
    let authority := rest.takeWhile (fun c => !authEnd c)
    let afterAuth := rest.dropWhile (fun c => !authEnd c)
    let hostport := afterLastChar '@' authority
    let hp :=
      match splitLastChar ':' hostport with
      | some p => (p.1, some (String.mk p.2))
      | none => (hostport, (none : Option String))
    let hostChars := hp.1
    let portPart := hp.2
    let pathChars := afterAuth.takeWhile (fun c => c ≠ '?' && c ≠ '#')
    let afterPath := afterAuth.dropWhile (fun c => c ≠ '?' && c ≠ '#')
    let searchChars := afterPath.takeWhile (fun c => c ≠ '#')
    let hashChars := afterPath.dropWhile (fun c => c ≠ '#')
    { protocol := some protocol
      hostname := some (lowerStr (String.mk hostChars))
      port := portPart
      pathname := if pathChars.isEmpty then none else some (String.mk pathChars)
      search := if searchChars.isEmpty then none else some (String.mk searchChars)
      hash := if hashChars.isEmpty then none else some (String.mk hashChars) }

/-- Decimal value of a list of digit characters (most significant first). -/
def digitsToNat (ds : List Char) : Nat :=
  ds.foldl (fun n c => n * 10 + (c.toNat - 48)) 0

/-- Model of JavaScript `parseInt(s, 10)` on an optional string: `NaN`
(here `none`) when the argument is `null` or does not start with a digit,
otherwise the value of the leading run of digits. -/
def parseIntLeading : Option String → Option Nat
  | none => none
  | some t =>
    let ds := t.data.takeWhile Char.isDigit
    if ds.isEmpty then none else some (digitsToNat ds)

/-! ### Request data model (`IAttachment`, `IExOptions`, `IRequestParam`) -/

/-- An MTOM attachment (`IAttachment`); its `body` is an opaque readable
stream, modelled by an identifier. -/
structure Attachment where
  name : String
  contentId : String
  mimetype : String
  body : Nat
deriving Repr, DecidableEq

/-- A value appearing as the body of a multipart part: the primary part
carries the string payload (or `undefined` on a body-less request), an
attachment part carries its stream. -/
inductive PBody where
  | str (s : String)
  | stream (sid : Nat)
  | undef
deriving Repr, DecidableEq

/-- One element of the `multipart` array built in the MTOM branch of
`buildRequest` (an object literal with these exact keys). -/
structure Part where
  contentType : String
  contentId : String
  contentTransferEncoding : Option String := none
  contentDisposition : Option String := none
  body : PBody
deriving Repr, DecidableEq

/-- A value stored in the free-form `exoptions` bag (`IExOptions`). -/
inductive OptVal where
  | str (s : String)
  | bool (b : Bool)
  | hdrs (entries : List (String × String))
  | atts (l : List Attachment)
deriving Repr, DecidableEq

/-- The `exoptions` object: its own keys in insertion order. -/
abbrev ExOptions := List (String × OptVal)

/-- Property read `exoptions[k]` (`undefined` when the key is absent). -/
def getOpt (exo : ExOptions) (k : String) : Option OptVal :=
  match exo with
  | [] => none
  | (k0, v) :: rest => if k0 = k then some v else getOpt rest k

/-- JavaScript truthiness of an `exoptions` member read. -/
def optTruthy (v : Option OptVal) : Bool :=
  match v with
  | none => false
  | some (.bool b) => b
  | some (.str s) => s ≠ ""
  | some (.hdrs _) => true
  | some (.atts _) => true

/-- `exoptions.attachments || []`. -/
def optAttachments (exo : ExOptions) : List Attachment :=
  match getOpt exo "attachments" with
  | some (.atts l) => l
  | _ => []

/-- The request descriptor built by `buildRequest` (`IRequestParam`).
The fixed fields mirror the object literal of the source; `extra` holds
the free-form options copied verbatim by the final merge loop (dynamic
property assignments `options[attr] = exoptions[attr]`). -/
structure IRequestParam where
  uri : String
  method : String
  headers : HeadersObj
  redirect : String
  body : Option String := none
  multipart : Option (List Part) := none
  extra : List (String × OptVal) := []
deriving Repr, DecidableEq

/-- The client version baked into the `User-Agent` header (read from
`package.json` in the source; its value is irrelevant to every claim). -/
def VERSION : String := "0.0.0"

/-- The keys of the final merge loop that are merged member-by-member
instead of assigned wholesale (`const mergeOptions = ['headers']`). -/
def mergeOptionsKeys : List String := ["headers"]

/-- Assign a key on the free-form part of the descriptor (JavaScript
object property assignment: replace in place or append). -/
def setEntryOpt : List (String × OptVal) → String → OptVal → List (String × OptVal)
  | [], k, v => [(k, v)]
  | (k0, v0) :: rest, k, v =>
    if k0 = k then (k0, v) :: rest else (k0, v0) :: setEntryOpt rest k v

/-- The final loop of `buildRequest`
(`for (const attr in _.omit(exoptions, ['attachments'])) ...`): a
`headers`-shaped option is written member-by-member onto the `Headers`
object with plain property assignments, every other option is assigned
onto the descriptor verbatim. -/
def mergeExOptions (o : IRequestParam) (exo : ExOptions) : IRequestParam :=
  exo.foldl
    (fun o kv =>
      if kv.1 = "attachments" then o
      else if mergeOptionsKeys.contains kv.1 then
        match kv.2 with
        | .hdrs hs =>
          { o with headers := hs.foldl (fun h p => setProp h p.1 p.2) o.headers }
        | _ => o
      else { o with extra := setEntryOpt o.extra kv.1 kv.2 })
    o

/-- The `action` scan of the MTOM branch: when the pre-existing
`Content-Type` value contains `action`, the loop keeps the *last*
`"; "`-separated component containing `action`. -/
def actionOf (ct0 : String) : Option String :=
  if hasSubB "action".data ct0.data then
    (ct0.splitOn "; ").foldl
      (fun acc ct => if hasSubB "action".data ct.data then some ct else acc)
      none
  else none

/-- Shallow embedding of `HttpClient.buildRequest`.  The two calls to
`uuid()` of the MTOM branch are made explicit as the parameters `uuid1`
(the primary part's content-id, called `start` in the source) and `uuid2`
(the multipart boundary).  `data` is the payload (`none` models a call
without a body; a non-string payload never reaches the branches the
claims are about).  The MTOM branch reads `headers.get('content-type')`
and immediately calls `.indexOf` on it, so a missing `Content-Type`
header throws a `TypeError`, modelled by `Except.error`. -/
def buildRequest (uuid1 uuid2 : String) (rurl : String) (data : Option String)
    (exheaders : List (String × String) := [])
    (exoptions : ExOptions := []) : Except String IRequestParam :=
  let curl := urlParse rurl
  let host := match curl.hostname with
    | some h => h
    | none => "null"
  let port := parseIntLeading curl.port
  let _path := (curl.pathname.getD "/") ++ (curl.search.getD "") ++ (curl.hash.getD "")
  let method := match data with
    | some s => if s ≠ "" then "POST" else "GET"
    | none => "GET"
  let headers0 : HeadersObj :=
    { entries :=
        [ ("user-agent", "node-soap/" ++ VERSION)
        , ("accept", "text/html,application/xhtml+xml,application/xml,text/xml;q=0.9,*/*;q=0.8")
        , ("accept-encoding", "none")
        , ("accept-charset", "utf-8")
        , ("connection", if optTruthy (getOpt exoptions "forever") then "keep-alive" else "close")
        , ("host", host ++ (match port with | none => "" | some p => ":" ++ toString p)) ]
      props := [] }
  let attachments := optAttachments exoptions
  let forceMTOM := optTruthy (getOpt exoptions "forceMTOM")
  let headers1 := match data with
    | some s =>
      if attachments.isEmpty && !forceMTOM then
        hset (hset headers0 "Content-Length" (toString s.utf8ByteSize))
          "Content-Type" "application/x-www-form-urlencoded"
      else headers0
    | none => headers0
  let headers2 := exheaders.foldl (fun h kv => hset h kv.1 kv.2) headers1
  let options0 : IRequestParam :=
    { uri := rurl, method := method, headers := headers2, redirect := "follow" }
  if forceMTOM || !attachments.isEmpty then
    match hget headers2 "content-type" with
    | none =>
      Except.error "TypeError: cannot read indexOf of null content-type"
    | some ct0 =>
      let action := actionOf ct0
      let ct1 := "multipart/related; type=\"application/xop+xml\"; start=\"<"
        ++ uuid1 ++ ">\"; start-info=\"text/xml\"; boundary=" ++ uuid2
      let ct2 := match action with
        | some a => ct1 ++ "; " ++ a
        | none => ct1
      let headers3 := hset headers2 "Content-Type" ct2
      let primary : Part :=
        { contentType := "application/xop+xml; charset=UTF-8; type=\"text/xml\""
          contentId := "<" ++ uuid1 ++ ">"
          body := match data with
            | some s => PBody.str s
            | none => PBody.undef }
      let parts := primary :: attachments.map (fun a =>
        { contentType := a.mimetype
          contentTransferEncoding := some "binary"
          contentId := "<" ++ a.contentId ++ ">"
          contentDisposition := some ("attachment; filename=\"" ++ a.name ++ "\"")
          body := PBody.stream a.body : Part })
      Except.ok (mergeExOptions
        { options0 with headers := headers3, multipart := some parts } exoptions)
  else
    Except.ok (mergeExOptions { options0 with body := data } exoptions)

/-- The `Host` header of a successfully built request (a convenience
accessor used by the claims about `buildRequest`). -/
def hostHeaderOf (e : Except String IRequestParam) : Option String :=
  match e with
  | .ok r => hget r.headers "Host"
  | .error _ => none

/-- Extract the value of the `start` parameter of a `Content-Type` header
value: the text between the first occurrence of `start="` and the next
double quote. -/
def startParam (ctv : String) : Option String :=
  (splitFirstAt "start=\"".data ctv.data).map
    (fun p => String.mk (p.2.takeWhile (fun c => c ≠ '"')))

/-! ### The envelope regular expression of `handleResponse`

The source runs, on a string body,
`body.replace(/<!--[\s\S]*?-->/, '').match(/(?:<\?[^?]*\?>[\s]*)?<([^:]*):Envelope([\S\s]*)<\/\1:Envelope>/i)`
and replaces the body by `match[0]` when a match exists.  The matcher is
modelled character by character with JavaScript semantics: the `replace`
without a `g` flag removes only the first comment, `match` finds the
leftmost position admitting a match, the optional declaration group is
tried first (and dropped on failure of the remainder), `[^?]*`, `[^:]*`
and `[\s]*` are effectively deterministic because a shorter match would
place a required literal on a character that just failed the class, the
greedy `[\S\s]*` makes the close tag bind to its *last* occurrence, and
the `i` flag makes the literals and the backreference `\1`
case-insensitive. -/

/-- Whitespace class `[\s]` of a JavaScript regex (the members that can
occur in the bodies of interest). -/
def jsWs (c : Char) : Bool :=
  c = ' ' || c = '\t' || c = '\n' || c = '\r' ||
  c = '\x0b' || c = '\x0c' || c = ' ' || c = '﻿'

/-- The case-folded tag pattern `:Envelope` that must follow the captured
namespace prefix in the open tag. -/
def openTagPat : List Char := ":envelope".data

/-- The case-folded pattern `:Envelope>` that must follow `</` and the
backreferenced prefix in the close tag. -/
def closeTailPat : List Char := ":envelope>".data

/-- Try to match `<\/\1:Envelope>` (with `\1` bound to `pre`) at the
start of `l`; on success return the rest of `l` after the close tag. -/
def closeAt (pre l : List Char) : Option (List Char) :=
  match litPrefixRest "</".data l with
  | some r1 =>
    match ciPrefix pre r1 with
    | some r2 => ciPrefix closeTailPat r2
    | none => none
  | none => none

/-- Rest of `l` after the *last* position where the close tag for prefix
`pre` matches (the greedy `[\S\s]*` backtracks from the longest group). -/
def lastCloseRest (pre : List Char) : List Char → Option (List Char)
  | [] => none
  | c :: rest =>
    match lastCloseRest pre rest with
    | some r => some r
    | none => closeAt pre (c :: rest)

/-- Try to match the optional declaration group `(?:<\?[^?]*\?>[\s]*)?`
at the start of `l`; on success return the rest after it. -/
def declAt (l : List Char) : Option (List Char) :=
  match litPrefixRest "<?".data l with
  | some r1 =>
    match litPrefixRest "?>".data (r1.dropWhile (fun c => c ≠ '?')) with
    | some r3 => some (r3.dropWhile jsWs)
    | none => none
  | none => none

/-- Try to match `<([^:]*):Envelope([\S\s]*)<\/\1:Envelope>` at the start
of `l`; on success return the rest of `l` after the close tag. -/
def coreAt (l : List Char) : Option (List Char) :=
  match litPrefixRest "<".data l with
  | some r1 =>
    let pre := r1.takeWhile (fun c => c ≠ ':')
    match ciPrefix openTagPat (r1.dropWhile (fun c => c ≠ ':')) with
    | some r3 => lastCloseRest pre r3
    | none => none
  | none => none

/-- Try the whole pattern at the start of `l`: the greedy optional
declaration group first, falling back to the bare core on failure. -/
def matchAt (l : List Char) : Option (List Char) :=
  match declAt l with
  | some rest =>
    match coreAt rest with
    | some r => some r
    | none => coreAt l
  | none => coreAt l

/-- Scan for the leftmost position admitting a match; return that suffix
together with the rest after the match. -/
def findFrom : List Char → Option (List Char × List Char)
  | [] => none
  | c :: rest =>
    match matchAt (c :: rest) with
    | some r => some (c :: rest, r)
    | none => findFrom rest

/-- The matched substring `match[0]`, when the pattern matches. -/
def findMatch (l : List Char) : Option (List Char) :=
  (findFrom l).map (fun p => p.1.take (p.1.length - p.2.length))

/-- Try to match a full comment `<!--[\s\S]*?-->` at the start of `l`;
the lazy group binds to the *first* `-->`.  Returns the rest after it. -/
def commentAt (l : List Char) : Option (List Char) :=
  match litPrefixRest "<!--".data l with
  | some r1 => (splitFirstAt "-->".data r1).map (fun p => p.2)
  | none => none

/-- Leftmost full comment occurrence: the part before it and the part
after it. -/
def removeComment : List Char → Option (List Char × List Char)
  | [] => none
  | c :: rest =>
    match commentAt (c :: rest) with
    | some after => some ([], after)
    | none => (removeComment rest).map (fun p => (c :: p.1, p.2))

/-- `body.replace(/<!--[\s\S]*?-->/, '')`: remove the first comment block
(the regex has no `g` flag), or return the input unchanged. -/
def removeFirstComment (l : List Char) : List Char :=
  match removeComment l with
  | some p => p.1 ++ p.2
  | none => l

/-- Shallow embedding of `HttpClient.handleResponse` on a string body:
match the envelope pattern against the comment-stripped body; on success
the body becomes `match[0]`, otherwise the *original* body is returned. -/
def handleResponse (body : String) : String :=
  match findMatch (removeFirstComment body.data) with
  | some m => String.mk m
  | none => body

/-- Case-insensitive occurrence test: does the case-folded pattern `pat`
match at some position of `l`? -/
def ciOccursB (pat : List Char) : List Char → Bool
  | [] => (ciPrefix pat ([] : List Char)).isSome
  | c :: rest => (ciPrefix pat (c :: rest)).isSome || ciOccursB pat rest

/-! ### The transport executor and the `request` control flow

The asynchronous paths are modelled as traces.  A promise settles exactly
once, so one HTTP exchange is one `FetchOutcome`, an injected request
handler invoking its callback once per exchange is one
`TransportResult`, and `res.text()` settling is the `textResult` field.
The functions below list, in order, the calls the source makes. -/

/-- The response descriptor assembled by `requestWrapper` on a resolved
fetch (`statusCode`/`statusMessage` copied from the fetch response,
elapsed time and the request/response header snapshots attached). -/
structure ResponseDescriptor where
  statusCode : Nat
  statusMessage : String
  elapsedTime : Nat
  requestHeaders : List (String × String)
  responseHeaders : List (String × String)
deriving Repr, DecidableEq

/-- Outcome of the single `fetch` performed by `requestWrapper`. -/
inductive FetchOutcome where
  | resolve (status : Nat) (statusText : String)
      (respHeaders : List (String × String)) (body : PBody)
  | reject (e : String)
deriving Repr, DecidableEq

/-- One invocation of the callback given to `requestWrapper`:
`(err, response, body)`. -/
structure WCall where
  err : Option String
  response : Option ResponseDescriptor
  body : Option PBody
deriving Repr, DecidableEq

/-- Shallow embedding of `requestWrapper` (the default transport
executor): the calls it makes to its callback, given the outcome of the
fetch.  On resolution the callback receives a `null` error and the
response regardless of the status code (the non-2xx error branch of the
source is commented out); on rejection it receives the error. -/
def requestWrapper (elapsed : Nat) (reqHeaders : List (String × String))
    (o : FetchOutcome) : List WCall :=
  match o with
  | .resolve st sm hs b =>
    [ { err := none
        response := some
          { statusCode := st, statusMessage := sm, elapsedTime := elapsed
            requestHeaders := reqHeaders, responseHeaders := hs }
        body := some b } ]
  | .reject e => [{ err := some e, response := none, body := none }]

/-- The facet of a response object that `request`'s callback uses after a
successful exchange with a non-string body: the settling of `res.text()`. -/
structure ResModel where
  textResult : Except String String
deriving Repr

/-- How the (default or injected) request handler settles one exchange:
an error, or a response together with the raw body it passed. -/
inductive TransportResult where
  | err (e : String)
  | ok (res : ResModel) (body : PBody)
deriving Repr

/-- Map the default executor's fetch outcome onto the handler interface
seen by `request` (body `none`-error cases do not arise: `requestWrapper`
always passes the response body object through). -/
def fetchToTransport (text : Except String String) (o : FetchOutcome) : TransportResult :=
  match o with
  | .resolve _ _ _ b => .ok { textResult := text } b
  | .reject e => .err e

/-- One invocation of the caller-supplied `_callback`. -/
inductive CbCall where
  | fail (e : String)
  | succeed (body : Option String)
deriving Repr, DecidableEq

/-- The raw sequence of `_callback` invocations performed by the
`callback` closure of `HttpClient.request` for one settled exchange:
an error is forwarded, a string body is normalized and delivered, and a
non-string body goes through `res.text().catch(...).then(...)` — where a
text failure first fires the catch handler (`_callback(err, res)`) and
then the chained then handler fires again with `undefined`
(`_callback(null, res, undefined)`).  The `_.once` wrapper collapses the
extra invocation; see `visibleCalls`. -/
def innerCalls (t : TransportResult) : List CbCall :=
  match t with
  | .err e => [.fail e]
  | .ok _ (.str s) => [.succeed (some (handleResponse s))]
  | .ok res (.stream _) =>
    match res.textResult with
    | .ok txt => [.succeed (some (handleResponse txt))]
    | .error e => [.fail e, .succeed none]
  | .ok res .undef =>
    match res.textResult with
    | .ok txt => [.succeed (some (handleResponse txt))]
    | .error e => [.fail e, .succeed none]

/-- Shallow embedding of `HttpClient.ntlmHandshake`: the probe request
settles with `probe` (an error, or the value of the `WWW-Authenticate`
response header, which `Headers.get` reports as `null` when absent).  A
missing challenge header is a handshake failure; otherwise the Type-3
message is derived from the challenge by the external `httpntlm` library,
abstracted as `type3`. -/
def ntlmHandshakeResult (probe : Except String (Option String))
    (type3 : String → String) : Except String String :=
  match probe with
  | .error e => .error e
  | .ok auth =>
    match auth with
    | none => .error "Stage 1 NTLM handshake failed."
    | some challenge => .ok (type3 challenge)

/-- An event of one logical `request()` call: the injected request
handler being invoked (with the `Authorization` header value when the
NTLM path set one), or an invocation of the caller's `_callback`. -/
inductive REvent where
  | handlerInvoked (authHeader : Option String)
  | cb (c : CbCall)
deriving Repr, DecidableEq

/-- Shallow embedding of the control flow of `HttpClient.request` after
`buildRequest` succeeded: without `ntlm` the handler runs immediately;
with `ntlm` the handshake either fails (its error goes straight to the
callback and the handler is never invoked) or yields an `Authorization`
value under which the handler runs.  `t` is how the handler settles the
real exchange. -/
def requestTrace (hasNtlm : Bool) (probe : Except String (Option String))
    (type3 : String → String) (t : TransportResult) : List REvent :=
  if hasNtlm then
    match ntlmHandshakeResult probe type3 with
    | .ok auth => REvent.handlerInvoked (some auth) :: (innerCalls t).map REvent.cb
    | .error e => [REvent.cb (.fail e)]
  else
    REvent.handlerInvoked none :: (innerCalls t).map REvent.cb

/-- The `_callback` invocations of a trace. -/
def cbCalls (evs : List REvent) : List CbCall :=
  evs.filterMap (fun e => match e with
    | .cb c => some c
    | .handlerInvoked _ => none)

/-- The invocations that reach the caller-supplied callback: the source
wraps it as `_callback = _.once(_callback)`, so only the first invocation
executes. -/
def visibleCalls (evs : List REvent) : List CbCall := (cbCalls evs).take 1

/-- How many times the injected request handler was invoked (i.e. how
many real exchanges were started). -/
def handlerCount (evs : List REvent) : Nat :=
  (evs.filter (fun e => match e with
    | .handlerInvoked _ => true
    | .cb _ => false)).length

/-! ### Lemmas about the headers model -/

theorem lookupEntry_setEntry_self (es : List (String × String)) (k v : String) :
    lookupEntry (setEntry es k v) k = some v := by
  induction es with
  | nil => simp [setEntry, lookupEntry]
  | cons kv rest ih =>
    obtain ⟨k0, v0⟩ := kv
    by_cases h : k0 = k
    · simp [setEntry, lookupEntry, h]
    · simp [setEntry, lookupEntry, h, ih]

theorem lookupEntry_setEntry_ne (es : List (String × String)) (k k2 v : String)
    (h : k ≠ k2) : lookupEntry (setEntry es k v) k2 = lookupEntry es k2 := by
  induction es with
  | nil => simp [setEntry, lookupEntry, h]
  | cons kv rest ih =>
    obtain ⟨k0, v0⟩ := kv
    by_cases h0 : k0 = k
    · subst h0
      simp [setEntry, lookupEntry, h]
    · simp [setEntry, lookupEntry, h0, ih]

theorem hget_hset_self (h : HeadersObj) (k k2 v : String)
    (hk : lowerStr k = lowerStr k2) : hget (hset h k v) k2 = some v := by
  simp [hget, hset, ← hk, lookupEntry_setEntry_self]

theorem hget_hset_ne (h : HeadersObj) (k k2 v : String)
    (hk : lowerStr k ≠ lowerStr k2) : hget (hset h k v) k2 = hget h k2 := by
  simp [hget, hset, lookupEntry_setEntry_ne _ _ _ _ hk]

theorem hget_foldl_hset (exh : List (String × String)) (h0 : HeadersObj) (k : String)
    (hx : ∀ kv ∈ exh, lowerStr kv.1 ≠ lowerStr k) :
    hget (exh.foldl (fun h kv => hset h kv.1 kv.2) h0) k = hget h0 k := by
  induction exh generalizing h0 with
  | nil => rfl
  | cons kv rest ih =>
    have h1 : lowerStr kv.1 ≠ lowerStr k := hx kv (List.mem_cons_self _ _)
    have h2 : ∀ kv2 ∈ rest, lowerStr kv2.1 ≠ lowerStr k :=
      fun kv2 hm => hx kv2 (List.mem_cons_of_mem _ hm)
    simpa [List.foldl_cons, ih _ h2] using hget_hset_ne h0 kv.1 k kv.2 h1

/-! ### Lemmas about the trace model -/

theorem innerCalls_length_pos (t : TransportResult) : 0 < (innerCalls t).length := by
  rcases t with e | ⟨res, body⟩
  · simp [innerCalls]
  · rcases body with s | sid | _ <;>
      rcases h : res.textResult with txt | e <;>
      simp [innerCalls, h]

theorem cbCalls_map_cb (l : List CbCall) : cbCalls (l.map REvent.cb) = l := by
  induction l with
  | nil => rfl
  | cons c rest ih => simpa [cbCalls, List.filterMap_cons] using ih

theorem cbCalls_handler_cons (a : Option String) (evs : List REvent) :
    cbCalls (REvent.handlerInvoked a :: evs) = cbCalls evs := by
  simp [cbCalls, List.filterMap_cons]

/-! ### C1 — the completion callback fires exactly once -/

/-- C1: for every path of a logical `request()` call — success, transport
error, NTLM handshake failure (probe rejection or missing challenge), or
body-read (`res.text()`) failure — the caller-supplied completion
callback is invoked exactly once: the one-shot `_.once` wrapper admits at
most one invocation, and every path performs at least one. -/
theorem c1_callback_exactly_once (hasNtlm : Bool)
    (probe : Except String (Option String)) (type3 : String → String)
    (t : TransportResult) :
    (visibleCalls (requestTrace hasNtlm probe type3 t)).length = 1 := by
  have hpos := innerCalls_length_pos t
  cases hasNtlm with
  | false =>
    simp only [requestTrace, Bool.false_eq_true, if_false, visibleCalls,
      cbCalls_handler_cons, cbCalls_map_cb, List.length_take]
    omega
  | true =>
    rcases probe with e | auth
    · simp [requestTrace, ntlmHandshakeResult, visibleCalls, cbCalls]
    · rcases auth with _ | challenge
      · simp [requestTrace, ntlmHandshakeResult, visibleCalls, cbCalls]
      · simp only [requestTrace, ntlmHandshakeResult, if_true, visibleCalls,
          cbCalls_handler_cons, cbCalls_map_cb, List.length_take]
        omega

/-! ### C4 — NTLM probe without a challenge aborts before the real request -/

/-- C4: when the NTLM probe response carries no `WWW-Authenticate` header
(`Headers.get` reports `null`), the handshake promise rejects with the
stage-1 error, the caller's callback receives exactly that error, and the
injected request handler is never invoked — the real request is not sent,
whatever outcome `t` it would have had. -/
theorem c4_ntlm_missing_challenge (type3 : String → String) (t : TransportResult) :
    requestTrace true (Except.ok none) type3 t
        = [REvent.cb (CbCall.fail "Stage 1 NTLM handshake failed.")] ∧
      handlerCount (requestTrace true (Except.ok none) type3 t) = 0 ∧
      visibleCalls (requestTrace true (Except.ok none) type3 t)
        = [CbCall.fail "Stage 1 NTLM handshake failed."] :=
  ⟨rfl, rfl, rfl⟩

/-! ### C5 — a non-2xx status is not an error for the default executor -/

/-- C5: whenever the fetch of the default transport executor resolves,
the callback is invoked exactly once with a `null` error and a response
carrying the status code — even when that status is outside 2xx (the
commented-out `!response.ok` branch of the source is dead): a non-2xx
status alone never produces an error argument. -/
theorem c5_non2xx_null_error (elapsed : Nat)
    (reqHeaders respHeaders : List (String × String)) (st : Nat) (sm : String)
    (b : PBody) (hst : st < 200 ∨ 299 < st) :
    ∃ resp, requestWrapper elapsed reqHeaders
        (FetchOutcome.resolve st sm respHeaders b)
        = [{ err := none, response := some resp, body := some b }] ∧
      resp.statusCode = st :=
  ⟨_, rfl, rfl⟩

/-- Witness for C5 at status 500. -/
theorem c5_non2xx_null_error_witness :
    ((500 : Nat) < 200 ∨ (299 : Nat) < 500) ∧
      ∃ resp, requestWrapper 7 [] (FetchOutcome.resolve 500 "Server Error" [] (PBody.stream 1))
          = [{ err := none, response := some resp, body := some (PBody.stream 1) }] ∧
        resp.statusCode = 500 :=
  ⟨by decide, c5_non2xx_null_error 7 [] [] 500 "Server Error" (PBody.stream 1) (by decide)⟩

/-! ### C2 — plain string payload -/

/-- C2: for every string payload with an empty attachments list and
`forceMTOM` unset, `buildRequest` succeeds with a request whose body is
the payload verbatim, whose `Content-Length` is the payload's UTF-8
*byte* length, and whose `Content-Type` is
`application/x-www-form-urlencoded`; the two final conjuncts pin down on
a concrete non-ASCII payload that this is a byte count, not a character
count. -/
theorem c2_plain_string_request (u1 u2 rurl payload : String) :
    (∃ r, buildRequest u1 u2 rurl (some payload) [] [] = Except.ok r ∧
      r.body = some payload ∧
      hget r.headers "Content-Length" = some (toString payload.utf8ByteSize) ∧
      hget r.headers "Content-Type" = some "application/x-www-form-urlencoded" ∧
      r.multipart = none) ∧
    ("héllo" : String).utf8ByteSize = 6 ∧ ("héllo" : String).length = 5 := by
  refine ⟨⟨_, rfl, rfl, ?_, ?_, rfl⟩, by decide, by decide⟩
  · show hget (hset (hset _ "Content-Length" (toString payload.utf8ByteSize))
        "Content-Type" "application/x-www-form-urlencoded") "Content-Length"
      = some (toString payload.utf8ByteSize)
    rw [hget_hset_ne _ _ _ _ (by decide)]
    exact hget_hset_self _ _ _ _ (by decide)
  · show hget (hset (hset _ "Content-Length" (toString payload.utf8ByteSize))
        "Content-Type" "application/x-www-form-urlencoded") "Content-Type"
      = some "application/x-www-form-urlencoded"
    exact hget_hset_self _ _ _ _ (by decide)

/-! ### C10 — the MTOM branch throws without a Content-Type header -/

/-- C10: with at least one attachment (or `forceMTOM` set) and no
`Content-Type` entry among the base headers or the caller's extra
headers, `buildRequest` does not return a descriptor: the MTOM branch
reads `headers.get('content-type')` (which is `null`) and calls
`.indexOf` on it, throwing a `TypeError`. -/
theorem c10_mtom_missing_content_type (u1 u2 rurl payload : String)
    (atts : List Attachment) (fm : Bool) (exh : List (String × String))
    (hmt : atts ≠ [] ∨ fm = true)
    (hex : ∀ kv ∈ exh, lowerStr kv.1 ≠ "content-type") :
    buildRequest u1 u2 rurl (some payload) exh
        [("attachments", OptVal.atts atts), ("forceMTOM", OptVal.bool fm)]
      = Except.error "TypeError: cannot read indexOf of null content-type" := by
  have hlo : lowerStr "content-type" = "content-type" := by decide
  have hx : ∀ kv ∈ exh, lowerStr kv.1 ≠ lowerStr "content-type" := by
    intro kv hm
    rw [hlo]
    exact hex kv hm
  have hne : ¬ (atts.isEmpty && !fm) = true := by
    rcases hmt with h | h
    · cases atts with
      | nil => exact absurd rfl h
      | cons a as => simp [List.isEmpty]
    · simp [h]
  have hor : (fm || !atts.isEmpty) = true := by
    rcases hmt with h | h
    · cases atts with
      | nil => exact absurd rfl h
      | cons a as => simp [List.isEmpty]
    · simp [h]
  simp only [buildRequest, getOpt, optAttachments, optTruthy]
  simp only [show ("attachments" = "forceMTOM") = False by simp, if_false, if_true,
    reduceCtorEq, reduceIte]
  simp only [hne, if_false, hor, if_true]
  rw [hget_foldl_hset _ _ _ hx]
  rfl

/-- Witness for C10: one attachment, no extra headers. -/
theorem c10_mtom_missing_content_type_witness :
    (([⟨"f", "cid1", "m", 7⟩] : List Attachment) ≠ [] ∨ false = true) ∧
    (∀ kv ∈ ([] : List (String × String)), lowerStr kv.1 ≠ "content-type") ∧
    buildRequest "u1" "u2" "http://h/" (some "p") []
        [("attachments", OptVal.atts [⟨"f", "cid1", "m", 7⟩]),
         ("forceMTOM", OptVal.bool false)]
      = Except.error "TypeError: cannot read indexOf of null content-type" :=
  ⟨by decide, by decide,
    c10_mtom_missing_content_type "u1" "u2" "http://h/" "p"
      [⟨"f", "cid1", "m", 7⟩] false [] (by decide) (by decide)⟩

/-! ### C8 — the `headers` option merge never reaches the wire -/

/-- C8 (bug demonstration): free-form options other than `attachments`
and `headers` are copied onto the descriptor verbatim (here `timeout`),
but a `headers`-shaped option is merged with plain property assignments
`options.headers[name] = value` onto the fetch `Headers` instance: the
entry lands in the expando properties, `Headers.get` cannot see it, and
the effective header set iterated by the transport contains no `x-foo` —
contradicting the claim that each entry becomes visible in the request's
effective headers. -/
theorem c8_headers_option_not_effective :
    ∃ r, buildRequest "u1" "u2" "http://h/" (some "x") []
          [("headers", OptVal.hdrs [("X-Foo", "bar")]), ("timeout", OptVal.str "5000")]
        = Except.ok r ∧
      lookupProp r.headers "X-Foo" = some "bar" ∧
      hget r.headers "X-Foo" = none ∧
      ((effectiveHeaders r.headers).all (fun kv => lowerStr kv.1 ≠ "x-foo")) = true ∧
      r.extra = [("timeout", OptVal.str "5000")] := by
  refine ⟨_, rfl, ?_, ?_, ?_, ?_⟩ <;> decide

/-! ### Lemmas about the scanning primitives -/

theorem litPrefixRest_append {pat l r : List Char} (b : List Char)
    (h : litPrefixRest pat l = some r) :
    litPrefixRest pat (l ++ b) = some (r ++ b) := by
  induction pat generalizing l with
  | nil =>
    simp only [litPrefixRest, Option.some.injEq] at h
    subst h
    rfl
  | cons p ps ih =>
    cases l with
    | nil => simp [litPrefixRest] at h
    | cons c cs =>
      simp only [litPrefixRest] at h
      by_cases hpc : p = c
      · rw [if_pos hpc] at h
        simpa [litPrefixRest, hpc] using ih h
      · rw [if_neg hpc] at h
        exact absurd h (by simp)

theorem litPrefixRest_length_le {pat l r : List Char}
    (h : litPrefixRest pat l = some r) : pat.length ≤ l.length := by
  induction pat generalizing l with
  | nil => simp
  | cons p ps ih =>
    cases l with
    | nil => simp [litPrefixRest] at h
    | cons c cs =>
      simp only [litPrefixRest] at h
      by_cases hpc : p = c
      · rw [if_pos hpc] at h
        have := ih h
        simp only [List.length_cons]
        omega
      · rw [if_neg hpc] at h
        exact absurd h (by simp)

theorem litPrefixRest_append_none {pat l : List Char} (b : List Char)
    (hlen : pat.length ≤ l.length) (h : litPrefixRest pat l = none) :
    litPrefixRest pat (l ++ b) = none := by
  induction pat generalizing l with
  | nil => simp [litPrefixRest] at h
  | cons p ps ih =>
    cases l with
    | nil => simp at hlen
    | cons c cs =>
      simp only [List.cons_append, litPrefixRest] at h ⊢
      by_cases hpc : p = c
      · rw [if_pos hpc] at h ⊢
        exact ih (by simpa using hlen) h
      · rw [if_neg hpc]

theorem splitFirstAt_nil_pat (l : List Char) :
    splitFirstAt [] l = some ([], l) := by
  cases l <;> rfl

theorem splitFirstAt_length_le {pat : List Char} :
    ∀ {l : List Char} {pr : List Char × List Char},
      splitFirstAt pat l = some pr → pat.length ≤ l.length := by
  intro l
  induction l with
  | nil =>
    intro pr h
    simp only [splitFirstAt] at h
    cases hl : litPrefixRest pat ([] : List Char) with
    | none => rw [hl] at h; exact absurd h (by simp)
    | some r => exact litPrefixRest_length_le hl
  | cons c cs ih =>
    intro pr h
    simp only [splitFirstAt] at h
    cases hl : litPrefixRest pat (c :: cs) with
    | some r => exact litPrefixRest_length_le hl
    | none =>
      rw [hl] at h
      cases hs : splitFirstAt pat cs with
      | none => rw [hs] at h; exact absurd h (by simp)
      | some pr2 =>
        have := ih hs
        simp only [List.length_cons]
        omega

theorem splitFirstAt_append {pat : List Char} (b : List Char) :
    ∀ {l a r : List Char}, splitFirstAt pat l = some (a, r) →
      splitFirstAt pat (l ++ b) = some (a, r ++ b) := by
  intro l
  induction l with
  | nil =>
    intro a r h
    have hp : pat = [] := by
      have := splitFirstAt_length_le h
      exact List.length_eq_zero.mp (Nat.le_zero.mp this)
    subst hp
    rw [splitFirstAt_nil_pat] at h
    have h2 : (([] : List Char), ([] : List Char)) = (a, r) := by simpa using h
    injection h2 with h3 h4
    subst h3
    subst h4
    simpa using splitFirstAt_nil_pat b
  | cons c cs ih =>
    intro a r h
    simp only [splitFirstAt] at h
    cases hl : litPrefixRest pat (c :: cs) with
    | some r0 =>
      rw [hl] at h
      have h2 : (([] : List Char), r0) = (a, r) := by simpa using h
      injection h2 with h3 h4
      subst h3
      subst h4
      have hlit := litPrefixRest_append b hl
      rw [List.cons_append] at hlit
      rw [List.cons_append]
      simp only [splitFirstAt, hlit]
    | none =>
      rw [hl] at h
      cases hs : splitFirstAt pat cs with
      | none => rw [hs] at h; exact absurd h (by simp)
      | some pr2 =>
        rw [hs] at h
        obtain ⟨a2, r2⟩ := pr2
        have h2 : (c :: a2, r2) = (a, r) := by simpa using h
        injection h2 with h3 h4
        subst h3
        subst h4
        have hlen : pat.length ≤ (c :: cs).length := by
          have := splitFirstAt_length_le hs
          simp only [List.length_cons]
          omega
        have hnone := litPrefixRest_append_none b hlen hl
        rw [List.cons_append] at hnone
        rw [List.cons_append]
        simp only [splitFirstAt, hnone, ih hs, Option.map_some']

theorem takeWhile_append_all {p : Char → Bool} {a : List Char} (b : List Char)
    (h : ∀ c ∈ a, p c = true) :
    (a ++ b).takeWhile p = a ++ b.takeWhile p := by
  induction a with
  | nil => rfl
  | cons c cs ih =>
    have hc : p c = true := h c (List.mem_cons_self _ _)
    simp [List.takeWhile_cons, hc,
      ih (fun x hx => h x (List.mem_cons_of_mem _ hx))]

theorem dropWhile_append_all {p : Char → Bool} {a : List Char} (b : List Char)
    (h : ∀ c ∈ a, p c = true) :
    (a ++ b).dropWhile p = b.dropWhile p := by
  induction a with
  | nil => rfl
  | cons c cs ih =>
    have hc : p c = true := h c (List.mem_cons_self _ _)
    simp [List.dropWhile_cons, hc,
      ih (fun x hx => h x (List.mem_cons_of_mem _ hx))]

theorem ciPrefix_matches_append {pat a : List Char} (b : List Char)
    (h : ciPrefix pat a = some []) : ciPrefix pat (a ++ b) = some b := by
  induction pat generalizing a with
  | nil =>
    simp only [ciPrefix, Option.some.injEq] at h
    subst h
    rfl
  | cons p ps ih =>
    cases a with
    | nil => simp [ciPrefix] at h
    | cons c cs =>
      simp only [ciPrefix] at h
      by_cases hpc : ciChar p c = true
      · rw [if_pos hpc] at h
        simpa [ciPrefix, hpc] using ih h
      · rw [if_neg hpc] at h
        exact absurd h (by simp)

/-! ### C3 — MTOM multipart structure -/

/-- Injectivity of wrapping a content-id in angle brackets. -/
theorem wrapAngle_injective :
    Function.Injective (fun s : String => "<" ++ s ++ ">") := by
  intro a b h
  have hd : ("<" ++ a ++ ">").data = ("<" ++ b ++ ">").data := congrArg String.data h
  simp only [String.data_append] at hd
  apply String.ext
  simpa using hd

/-- Computation of the `start` parameter extraction on the `Content-Type`
value built by the MTOM branch: whatever follows the boundary (`X`
covers the boundary uuid and an optional preserved `action` suffix), the
first `start="` occurrence is the generated one and its value is the
bracketed primary content-id, provided the uuid contains no quote. -/
theorem startParam_mtom (u1 : String) (X : List Char)
    (hq : ∀ c ∈ u1.data, c ≠ '"') :
    (splitFirstAt "start=\"".data
        (("multipart/related; type=\"application/xop+xml\"; start=\"<" : String).data
          ++ (u1.data ++ ((">\"; start-info=\"text/xml\"; boundary=" : String).data ++ X)))).map
      (fun p => String.mk (p.2.takeWhile (fun c => c ≠ '"')))
      = some ("<" ++ u1 ++ ">") := by
  have h1 : splitFirstAt "start=\"".data
      ("multipart/related; type=\"application/xop+xml\"; start=\"<" : String).data
      = some (("multipart/related; type=\"application/xop+xml\"; " : String).data, ['<']) := by
    decide
  have h2 := splitFirstAt_append
    (u1.data ++ ((">\"; start-info=\"text/xml\"; boundary=" : String).data ++ X)) h1
  rw [h2]
  have hall : ∀ c ∈ u1.data, (fun c => decide (c ≠ '"')) c = true := by
    intro c hc
    simpa using hq c hc
  show some (String.mk (List.takeWhile (fun c => decide (c ≠ '"'))
      ('<' :: (u1.data
        ++ ('>' :: '"' :: (("; start-info=\"text/xml\"; boundary=" : String).data ++ X))))))
    = some ("<" ++ u1 ++ ">")
  rw [List.takeWhile_cons]
  simp only [show (decide (('<' : Char) ≠ '"')) = true by decide, if_true]
  rw [takeWhile_append_all _ hall]
  rw [List.takeWhile_cons]
  simp only [show (decide (('>' : Char) ≠ '"')) = true by decide, if_true]
  rw [List.takeWhile_cons]
  simp only [show (decide (('"' : Char) ≠ '"')) = false by decide, if_false,
    Bool.false_eq_true]
  refine congrArg some ?_
  apply String.ext
  simp [String.data_append]

/-- C3: with `n ≥ 1` attachments (or `forceMTOM` set) and a pre-existing
`Content-Type` header (required by the MTOM branch, see C10), the built
request carries a multipart body of exactly `1 + n` parts; the primary
(first) part's `Content-ID` equals the `start` parameter of the outer
`Content-Type`; each attachment part carries its attachment's
`contentId` wrapped in angle brackets; and distinct attachment
content-ids yield pairwise distinct part `Content-ID`s. -/
theorem c3_mtom_multipart_structure (u1 u2 rurl payload ct : String)
    (atts : List Attachment) (fm : Bool)
    (hmt : atts ≠ [] ∨ fm = true)
    (hq : ∀ c ∈ u1.data, c ≠ '"')
    (hnd : (atts.map (fun a => a.contentId)).Nodup) :
    ∃ r parts, buildRequest u1 u2 rurl (some payload) [("Content-Type", ct)]
        [("attachments", OptVal.atts atts), ("forceMTOM", OptVal.bool fm)]
        = Except.ok r ∧
      r.multipart = some parts ∧
      parts.length = 1 + atts.length ∧
      parts.head?.map (fun p => p.contentId) = some ("<" ++ u1 ++ ">") ∧
      (∃ ctOut, hget r.headers "Content-Type" = some ctOut ∧
        startParam ctOut = some ("<" ++ u1 ++ ">")) ∧
      parts.tail.map (fun p => p.contentId)
        = atts.map (fun a => "<" ++ a.contentId ++ ">") ∧
      (parts.tail.map (fun p => p.contentId)).Nodup := by
  have hred : buildRequest u1 u2 rurl (some payload) [("Content-Type", ct)]
      [("attachments", OptVal.atts atts), ("forceMTOM", OptVal.bool fm)]
      = Except.ok
        { uri := rurl
          method := if payload ≠ "" then "POST" else "GET"
          headers := hset (hset
            { entries :=
                [ ("user-agent", "node-soap/" ++ VERSION)
                , ("accept", "text/html,application/xhtml+xml,application/xml,text/xml;q=0.9,*/*;q=0.8")
                , ("accept-encoding", "none")
                , ("accept-charset", "utf-8")
                , ("connection", "close")
                , ("host",
                    (match (urlParse rurl).hostname with
                      | some h => h
                      | none => "null")
                    ++ (match parseIntLeading (urlParse rurl).port with
                      | none => ""
                      | some p => ":" ++ toString p)) ]
              props := [] } "Content-Type" ct) "Content-Type"
            (match actionOf ct with
              | some a => "multipart/related; type=\"application/xop+xml\"; start=\"<"
                  ++ u1 ++ ">\"; start-info=\"text/xml\"; boundary=" ++ u2 ++ "; " ++ a
              | none => "multipart/related; type=\"application/xop+xml\"; start=\"<"
                  ++ u1 ++ ">\"; start-info=\"text/xml\"; boundary=" ++ u2)
          redirect := "follow"
          body := none
          multipart := some
            ({ contentType := "application/xop+xml; charset=UTF-8; type=\"text/xml\""
               contentId := "<" ++ u1 ++ ">"
               body := PBody.str payload }
              :: atts.map (fun a =>
                { contentType := a.mimetype
                  contentTransferEncoding := some "binary"
                  contentId := "<" ++ a.contentId ++ ">"
                  contentDisposition := some ("attachment; filename=\"" ++ a.name ++ "\"")
                  body := PBody.stream a.body }))
          extra := [("forceMTOM", OptVal.bool fm)] } := by
    cases fm with
    | false =>
      cases atts with
      | nil =>
        rcases hmt with h | h
        · exact absurd rfl h
        · exact absurd h (by simp)
      | cons a as => rfl
    | true =>
      cases atts with
      | nil => rfl
      | cons a as => rfl
  refine ⟨_, _, hred, rfl, ?_, rfl, ⟨_, rfl, ?_⟩, ?_, ?_⟩
  · simp only [List.length_cons, List.length_map]
    omega
  · cases hact : actionOf ct with
    | none =>
      simp only [startParam]
      have hsp := startParam_mtom u1 u2.data hq
      simpa [String.data_append, List.append_assoc] using hsp
    | some a =>
      simp only [startParam]
      have hsp := startParam_mtom u1 (u2.data ++ ("; " ++ a : String).data) hq
      simpa [String.data_append, List.append_assoc] using hsp
  · simp only [List.tail_cons, List.map_map]
    rfl
  · simp only [List.tail_cons, List.map_map]
    have h2 := List.Nodup.map wrapAngle_injective hnd
    rw [List.map_map] at h2
    exact h2

/-- Witness for C3: two attachments with distinct content-ids. -/
theorem c3_mtom_multipart_structure_witness :
    (([⟨"f.bin", "cid1", "application/octet-stream", 7⟩,
       ⟨"g.txt", "cid2", "text/plain", 8⟩] : List Attachment) ≠ [] ∨ false = true) ∧
    (∀ c ∈ ("uuid-start" : String).data, c ≠ '"') ∧
    (([⟨"f.bin", "cid1", "application/octet-stream", 7⟩,
       ⟨"g.txt", "cid2", "text/plain", 8⟩] : List Attachment).map
        (fun a => a.contentId)).Nodup ∧
    (∃ r parts, buildRequest "uuid-start" "uuid-bnd" "http://h/" (some "<x/>")
        [("Content-Type", "text/xml")]
        [("attachments", OptVal.atts
            [⟨"f.bin", "cid1", "application/octet-stream", 7⟩,
             ⟨"g.txt", "cid2", "text/plain", 8⟩]),
         ("forceMTOM", OptVal.bool false)]
        = Except.ok r ∧
      r.multipart = some parts ∧
      parts.length = 1 + ([⟨"f.bin", "cid1", "application/octet-stream", 7⟩,
        ⟨"g.txt", "cid2", "text/plain", 8⟩] : List Attachment).length ∧
      parts.head?.map (fun p => p.contentId) = some ("<" ++ "uuid-start" ++ ">") ∧
      (∃ ctOut, hget r.headers "Content-Type" = some ctOut ∧
        startParam ctOut = some ("<" ++ "uuid-start" ++ ">")) ∧
      parts.tail.map (fun p => p.contentId)
        = ([⟨"f.bin", "cid1", "application/octet-stream", 7⟩,
            ⟨"g.txt", "cid2", "text/plain", 8⟩] : List Attachment).map
            (fun a => "<" ++ a.contentId ++ ">") ∧
      (parts.tail.map (fun p => p.contentId)).Nodup) :=
  ⟨by decide, by decide, by decide,
    c3_mtom_multipart_structure "uuid-start" "uuid-bnd" "http://h/" "<x/>" "text/xml"
      [⟨"f.bin", "cid1", "application/octet-stream", 7⟩,
       ⟨"g.txt", "cid2", "text/plain", 8⟩] false
      (by decide) (by decide) (by decide)⟩

/-! ### C9 — the Host header and explicit ports -/

theorem splitLastChar_none {ch : Char} {l : List Char} (h : ∀ x ∈ l, x ≠ ch) :
    splitLastChar ch l = none := by
  induction l with
  | nil => rfl
  | cons c cs ih =>
    have hc : c ≠ ch := h c (List.mem_cons_self _ _)
    simp [splitLastChar, ih (fun x hx => h x (List.mem_cons_of_mem _ hx)), hc]

theorem splitLastChar_single {ch : Char} {a b : List Char}
    (ha : ∀ x ∈ a, x ≠ ch) (hb : ∀ x ∈ b, x ≠ ch) :
    splitLastChar ch (a ++ ch :: b) = some (a, b) := by
  induction a with
  | nil => simp [splitLastChar, splitLastChar_none hb]
  | cons c cs ih =>
    have := ih (fun x hx => ha x (List.mem_cons_of_mem _ hx))
    simp [splitLastChar, this]

theorem afterLastChar_no_occ {ch : Char} {l : List Char} (h : ∀ x ∈ l, x ≠ ch) :
    afterLastChar ch l = l := by
  unfold afterLastChar
  rw [splitLastChar_none h]

theorem isDigit_ne {c : Char} (h : c.isDigit = true) :
    c ≠ ':' ∧ c ≠ '/' ∧ c ≠ '?' ∧ c ≠ '#' ∧ c ≠ '@' := by
  refine ⟨?_, ?_, ?_, ?_, ?_⟩ <;> rintro rfl <;> exact absurd h (by decide)

/-- Components of `url.parse` on a URL without an explicit port. -/
theorem urlParse_noport (host path0 : String)
    (hhc : ∀ c ∈ host.data, c ≠ ':' ∧ c ≠ '/' ∧ c ≠ '?' ∧ c ≠ '#' ∧ c ≠ '@') :
    (urlParse ("http://" ++ host ++ "/" ++ path0)).hostname = some (lowerStr host) ∧
    (urlParse ("http://" ++ host ++ "/" ++ path0)).port = none := by
  have h1 : splitFirstAt "://".data ("http://" : String).data
      = some ("http".data, []) := by decide
  have h2 := splitFirstAt_append (host.data ++ ('/' :: path0.data)) h1
  rw [List.nil_append] at h2
  have hdata : ("http://" ++ host ++ "/" ++ path0).data
      = ("http://" : String).data ++ (host.data ++ ('/' :: path0.data)) := by
    simp [String.data_append]
  have hsplit : splitFirstAt "://".data ("http://" ++ host ++ "/" ++ path0).data
      = some ("http".data, host.data ++ ('/' :: path0.data)) := by
    rw [hdata]
    exact h2
  have hauthall : ∀ c ∈ host.data, (fun c => !authEnd c) c = true := by
    intro c hc
    obtain ⟨_, h2', h3', h4', _⟩ := hhc c hc
    simp [authEnd, h2', h3', h4']
  have hauth : (host.data ++ ('/' :: path0.data)).takeWhile (fun c => !authEnd c)
      = host.data := by
    rw [takeWhile_append_all _ hauthall, List.takeWhile_cons]
    simp [show (!authEnd '/') = false by decide]
  have hat : afterLastChar '@' host.data = host.data :=
    afterLastChar_no_occ (fun x hx => (hhc x hx).2.2.2.2)
  have hcolon : splitLastChar ':' host.data = none :=
    splitLastChar_none (fun x hx => (hhc x hx).1)
  constructor <;> · simp only [urlParse, hsplit, hauth, hat, hcolon]

/-- Components of `url.parse` on a URL with an explicit port. -/
theorem urlParse_withport (host p path0 : String)
    (hhc : ∀ c ∈ host.data, c ≠ ':' ∧ c ≠ '/' ∧ c ≠ '?' ∧ c ≠ '#' ∧ c ≠ '@')
    (hpd : ∀ c ∈ p.data, c.isDigit = true) :
    (urlParse ("http://" ++ host ++ ":" ++ p ++ "/" ++ path0)).hostname
        = some (lowerStr host) ∧
    (urlParse ("http://" ++ host ++ ":" ++ p ++ "/" ++ path0)).port = some p := by
  have h1 : splitFirstAt "://".data ("http://" : String).data
      = some ("http".data, []) := by decide
  have h2 := splitFirstAt_append
    (host.data ++ (':' :: (p.data ++ ('/' :: path0.data)))) h1
  rw [List.nil_append] at h2
  have hdata : ("http://" ++ host ++ ":" ++ p ++ "/" ++ path0).data
      = ("http://" : String).data
        ++ (host.data ++ (':' :: (p.data ++ ('/' :: path0.data)))) := by
    simp [String.data_append]
  have hsplit : splitFirstAt "://".data
      ("http://" ++ host ++ ":" ++ p ++ "/" ++ path0).data
      = some ("http".data, host.data ++ (':' :: (p.data ++ ('/' :: path0.data)))) := by
    rw [hdata]
    exact h2
  have hauthall : ∀ c ∈ host.data, (fun c => !authEnd c) c = true := by
    intro c hc
    obtain ⟨_, h2', h3', h4', _⟩ := hhc c hc
    simp [authEnd, h2', h3', h4']
  have hpall : ∀ c ∈ p.data, (fun c => !authEnd c) c = true := by
    intro c hc
    obtain ⟨_, h2', h3', h4', _⟩ := isDigit_ne (hpd c hc)
    simp [authEnd, h2', h3', h4']
  have hauth : (host.data ++ (':' :: (p.data ++ ('/' :: path0.data)))).takeWhile
      (fun c => !authEnd c) = host.data ++ (':' :: p.data) := by
    rw [takeWhile_append_all _ hauthall, List.takeWhile_cons]
    simp only [show (!authEnd ':') = true by decide, if_true]
    rw [takeWhile_append_all _ hpall, List.takeWhile_cons]
    simp [show (!authEnd '/') = false by decide]
  have hat : afterLastChar '@' (host.data ++ (':' :: p.data))
      = host.data ++ (':' :: p.data) := by
    refine afterLastChar_no_occ ?_
    intro x hx
    rcases List.mem_append.mp hx with hx1 | hx2
    · exact (hhc x hx1).2.2.2.2
    · rcases List.mem_cons.mp hx2 with rfl | hx3
      · decide
      · exact (isDigit_ne (hpd x hx3)).2.2.2.2
  have hcolon : splitLastChar ':' (host.data ++ (':' :: p.data))
      = some (host.data, p.data) :=
    splitLastChar_single (fun x hx => (hhc x hx).1)
      (fun x hx => (isDigit_ne (hpd x hx)).1)
  constructor <;> · simp only [urlParse, hsplit, hauth, hat, hcolon]

/-- Helper equality: appending the empty string. -/
theorem strAppendEmpty (s : String) : s ++ "" = s := by
  apply String.ext
  simp [String.data_append]

/-- C9 counterexample: `http://example.com:80/` uses the *default* port
for its scheme, yet the built request's `Host` header is
`example.com:80`, not `example.com` — the code appends `:port` whenever
the URL shows an explicit port, default or not. -/
theorem c9_default_port_counterexample :
    hostHeaderOf (buildRequest "u1" "u2" "http://example.com:80/" none [] [])
        = some "example.com:80" ∧
      hostHeaderOf (buildRequest "u1" "u2" "http://example.com:80/" none [] [])
        ≠ some "example.com" := by
  constructor
  · decide
  · decide

/-- C9 (amended): `buildRequest` sets `Host` to the URL's hostname, and
appends `:port` exactly when the URL carries an explicit (parseable)
port — default or not; a URL without a port yields a bare hostname. -/
theorem c9_host_port_amended (u1 u2 host p path0 : String) (n : Nat)
    (hhc : ∀ c ∈ host.data, c ≠ ':' ∧ c ≠ '/' ∧ c ≠ '?' ∧ c ≠ '#' ∧ c ≠ '@')
    (hlow : lowerStr host = host)
    (hpd : ∀ c ∈ p.data, c.isDigit = true)
    (hp : parseIntLeading (some p) = some n) :
    hostHeaderOf (buildRequest u1 u2 ("http://" ++ host ++ "/" ++ path0) none [] [])
        = some host ∧
    hostHeaderOf (buildRequest u1 u2 ("http://" ++ host ++ ":" ++ p ++ "/" ++ path0)
        none [] [])
        = some (host ++ ":" ++ toString n) := by
  constructor
  · obtain ⟨hhost, hport⟩ := urlParse_noport host path0 hhc
    have hbase : hostHeaderOf
        (buildRequest u1 u2 ("http://" ++ host ++ "/" ++ path0) none [] [])
        = some ((match (urlParse ("http://" ++ host ++ "/" ++ path0)).hostname with
            | some h => h
            | none => "null")
          ++ (match parseIntLeading
              (urlParse ("http://" ++ host ++ "/" ++ path0)).port with
            | none => ""
            | some q => ":" ++ toString q)) := rfl
    rw [hbase, hhost, hport, hlow]
    simp [parseIntLeading, strAppendEmpty]
  · obtain ⟨hhost, hport⟩ := urlParse_withport host p path0 hhc hpd
    have hbase : hostHeaderOf
        (buildRequest u1 u2 ("http://" ++ host ++ ":" ++ p ++ "/" ++ path0) none [] [])
        = some ((match (urlParse
              ("http://" ++ host ++ ":" ++ p ++ "/" ++ path0)).hostname with
            | some h => h
            | none => "null")
          ++ (match parseIntLeading
              (urlParse ("http://" ++ host ++ ":" ++ p ++ "/" ++ path0)).port with
            | none => ""
            | some q => ":" ++ toString q)) := rfl
    rw [hbase, hhost, hport, hlow, hp]
    refine congrArg some ?_
    apply String.ext
    simp [String.data_append]

/-- Witness for the amended C9 at `example.com` with port `8080`. -/
theorem c9_host_port_amended_witness :
    (∀ c ∈ ("example.com" : String).data,
        c ≠ ':' ∧ c ≠ '/' ∧ c ≠ '?' ∧ c ≠ '#' ∧ c ≠ '@') ∧
    lowerStr "example.com" = "example.com" ∧
    (∀ c ∈ ("8080" : String).data, c.isDigit = true) ∧
    parseIntLeading (some "8080") = some 8080 ∧
    (hostHeaderOf (buildRequest "u1" "u2" ("http://" ++ "example.com" ++ "/" ++ "svc")
          none [] []) = some "example.com" ∧
      hostHeaderOf (buildRequest "u1" "u2"
          ("http://" ++ "example.com" ++ ":" ++ "8080" ++ "/" ++ "svc") none [] [])
        = some ("example.com" ++ ":" ++ toString 8080)) :=
  ⟨by decide, by decide, by decide, by decide,
    c9_host_port_amended "u1" "u2" "example.com" "8080" "svc" 8080
      (by decide) (by decide) (by decide) (by decide)⟩

/-! ### C7 — bodies without an envelope tag pass through unchanged -/

theorem litPrefixRest_decompose {pat l r : List Char}
    (h : litPrefixRest pat l = some r) : l = pat ++ r := by
  induction pat generalizing l with
  | nil =>
    simp only [litPrefixRest, Option.some.injEq] at h
    simp [h]
  | cons p ps ih =>
    cases l with
    | nil => simp [litPrefixRest] at h
    | cons c cs =>
      simp only [litPrefixRest] at h
      by_cases hpc : p = c
      · rw [if_pos hpc] at h
        subst hpc
        simp [ih h]
      · rw [if_neg hpc] at h
        exact absurd h (by simp)

theorem ciOccursB_of_here {pat l : List Char}
    (h : (ciPrefix pat l).isSome = true) : ciOccursB pat l = true := by
  cases l with
  | nil => simpa [ciOccursB] using h
  | cons c cs => simp [ciOccursB, h]

theorem ciOccursB_append_right {pat b : List Char} (a : List Char)
    (h : ciOccursB pat b = true) : ciOccursB pat (a ++ b) = true := by
  induction a with
  | nil => simpa
  | cons c cs ih => simp [ciOccursB, ih]

theorem ciOccursB_of_suffix {pat l b : List Char} (a : List Char)
    (hl : l = a ++ b) (h : (ciPrefix pat b).isSome = true) :
    ciOccursB pat l = true := by
  subst hl
  exact ciOccursB_append_right a (ciOccursB_of_here h)

theorem declAt_suffix {l r : List Char} (h : declAt l = some r) :
    ∃ a, l = a ++ r := by
  unfold declAt at h
  cases h1 : litPrefixRest "<?".data l with
  | none => rw [h1] at h; exact absurd h (by simp)
  | some r1 =>
    rw [h1] at h
    dsimp only at h
    cases h2 : litPrefixRest "?>".data (r1.dropWhile (fun c => c ≠ '?')) with
    | none => rw [h2] at h; exact absurd h (by simp)
    | some r3 =>
      rw [h2] at h
      have hr : r = r3.dropWhile jsWs := by
        have := h
        simp only [Option.some.injEq] at this
        exact this.symm
      have e1 := litPrefixRest_decompose h1
      obtain ⟨t1, ht1⟩ : ∃ t, r1 = t ++ r1.dropWhile (fun c => c ≠ '?') :=
        ⟨_, (List.takeWhile_append_dropWhile _ _).symm⟩
      rw [litPrefixRest_decompose h2] at ht1
      obtain ⟨t3, ht3⟩ : ∃ t, r3 = t ++ r3.dropWhile jsWs :=
        ⟨_, (List.takeWhile_append_dropWhile _ _).symm⟩
      rw [← hr] at ht3
      refine ⟨"<?".data ++ (t1 ++ ("?>".data ++ t3)), ?_⟩
      rw [e1, ht1, ht3]
      simp [List.append_assoc]

theorem coreAt_occurs {l r : List Char} (h : coreAt l = some r) :
    ciOccursB openTagPat l = true := by
  unfold coreAt at h
  cases h1 : litPrefixRest "<".data l with
  | none => rw [h1] at h; exact absurd h (by simp)
  | some r1 =>
    rw [h1] at h
    dsimp only at h
    cases h2 : ciPrefix openTagPat (r1.dropWhile (fun c => c ≠ ':')) with
    | none => rw [h2] at h; exact absurd h (by simp)
    | some r3 =>
      have e1 := litPrefixRest_decompose h1
      have hsome : (ciPrefix openTagPat (r1.dropWhile (fun c => c ≠ ':'))).isSome
          = true := by
        rw [h2]
        rfl
      obtain ⟨t1, ht1⟩ : ∃ t, r1 = t ++ r1.dropWhile (fun c => c ≠ ':') :=
        ⟨_, (List.takeWhile_append_dropWhile _ _).symm⟩
      refine ciOccursB_of_suffix ("<".data ++ t1) ?_ hsome
      rw [e1]
      conv_lhs => rw [ht1]
      rw [List.append_assoc]

theorem matchAt_occurs {l r : List Char} (h : matchAt l = some r) :
    ciOccursB openTagPat l = true := by
  unfold matchAt at h
  cases h1 : declAt l with
  | none => rw [h1] at h; exact coreAt_occurs h
  | some rest =>
    rw [h1] at h
    dsimp only at h
    cases h2 : coreAt rest with
    | none => rw [h2] at h; exact coreAt_occurs h
    | some r2 =>
      obtain ⟨a, ha⟩ := declAt_suffix h1
      subst ha
      exact ciOccursB_append_right a (coreAt_occurs h2)

theorem findFrom_occurs {l : List Char} {pr : List Char × List Char}
    (h : findFrom l = some pr) : ciOccursB openTagPat l = true := by
  induction l with
  | nil => simp [findFrom] at h
  | cons c cs ih =>
    unfold findFrom at h
    cases h1 : matchAt (c :: cs) with
    | some r => exact matchAt_occurs h1
    | none =>
      rw [h1] at h
      simp [ciOccursB, ih h]

theorem findMatch_occurs {l m : List Char}
    (h : findMatch l = some m) : ciOccursB openTagPat l = true := by
  unfold findMatch at h
  cases hff : findFrom l with
  | none => rw [hff] at h; exact absurd h (by simp)
  | some pr => exact findFrom_occurs hff

/-- C7: a response body containing no (case-insensitive) occurrence of
`:envelope` once comments are stripped — in particular any body without a
namespace-prefixed `Envelope` open/close tag pair — is returned by
`handleResponse` unchanged. -/
theorem c7_no_envelope_identity (body : String)
    (h : ciOccursB openTagPat (removeFirstComment body.data) = false) :
    handleResponse body = body := by
  unfold handleResponse
  cases hf : findMatch (removeFirstComment body.data) with
  | none => rfl
  | some m =>
    have hocc := findMatch_occurs hf
    rw [hocc] at h
    exact absurd h (by simp)

/-- Witness for C7 on a plain text body. -/
theorem c7_no_envelope_identity_witness :
    ciOccursB openTagPat (removeFirstComment ("plain text response" : String).data)
        = false ∧
      handleResponse "plain text response" = "plain text response" :=
  ⟨by decide, c7_no_envelope_identity "plain text response" (by decide)⟩

/-! ### C6 — envelope extraction on noisy bodies -/

theorem litPrefixRest_ltQm (y : List Char) :
    litPrefixRest "<?".data ('<' :: '?' :: y) = some y := rfl

theorem litPrefixRest_qmGt (y : List Char) :
    litPrefixRest "?>".data ('?' :: '>' :: y) = some y := rfl

theorem litPrefixRest_lt (y : List Char) :
    litPrefixRest "<".data ('<' :: y) = some y := rfl

theorem litPrefixRest_ltSlash (y : List Char) :
    litPrefixRest "</".data ('<' :: '/' :: y) = some y := rfl

theorem ciPrefix_refl (l : List Char) : ciPrefix l l = some [] := by
  induction l with
  | nil => rfl
  | cons c cs ih => simp [ciPrefix, ciChar, ih]

theorem ciPrefix_self_append (l b : List Char) : ciPrefix l (l ++ b) = some b :=
  ciPrefix_matches_append b (ciPrefix_refl l)

theorem removeComment_none {l : List Char}
    (h : splitFirstAt "<!--".data l = none) : removeComment l = none := by
  induction l with
  | nil => rfl
  | cons c cs ih =>
    simp only [splitFirstAt] at h
    cases h1 : litPrefixRest "<!--".data (c :: cs) with
    | some r => rw [h1] at h; exact absurd h (by simp)
    | none =>
      rw [h1] at h
      have h2 : splitFirstAt "<!--".data cs = none := by
        cases h3 : splitFirstAt "<!--".data cs with
        | none => rfl
        | some pr => rw [h3] at h; exact absurd h (by simp)
      unfold removeComment
      rw [show commentAt (c :: cs) = none from by unfold commentAt; rw [h1]]
      dsimp only
      rw [ih h2]
      rfl

theorem closeAt_eval (pre trailL : List Char) :
    closeAt pre ('<' :: '/' :: (pre ++ ((":Envelope>" : String).data ++ trailL)))
      = some trailL := by
  unfold closeAt
  rw [litPrefixRest_ltSlash]
  dsimp only
  rw [ciPrefix_self_append]
  dsimp only
  exact ciPrefix_matches_append trailL (by decide)

theorem closeAt_none_head {pre : List Char} {c : Char} (hc : c ≠ '<')
    (l : List Char) : closeAt pre (c :: l) = none := by
  unfold closeAt
  have h1 : litPrefixRest "</".data (c :: l) = none := by
    show litPrefixRest ('<' :: '/' :: []) (c :: l) = none
    simp [litPrefixRest, Ne.symm hc]
  rw [h1]

theorem lastCloseRest_none {pre l : List Char} (h : ∀ c ∈ l, c ≠ '<') :
    lastCloseRest pre l = none := by
  induction l with
  | nil => rfl
  | cons c cs ih =>
    unfold lastCloseRest
    rw [ih (fun x hx => h x (List.mem_cons_of_mem _ hx))]
    dsimp only
    exact closeAt_none_head (h c (List.mem_cons_self _ _)) cs

theorem lastCloseRest_extend {pre b r : List Char} (a : List Char)
    (h : lastCloseRest pre b = some r) : lastCloseRest pre (a ++ b) = some r := by
  induction a with
  | nil => simpa
  | cons c cs ih =>
    rw [List.cons_append]
    unfold lastCloseRest
    rw [ih]

theorem lastCloseRest_close {pre trailL : List Char}
    (hplt : ∀ c ∈ pre, c ≠ '<') (ht : ∀ c ∈ trailL, c ≠ '<') :
    lastCloseRest pre ('<' :: '/' :: (pre ++ ((":Envelope>" : String).data ++ trailL)))
      = some trailL := by
  have hrest : lastCloseRest pre
      ('/' :: (pre ++ ((":Envelope>" : String).data ++ trailL))) = none := by
    apply lastCloseRest_none
    intro c hc
    rcases List.mem_cons.mp hc with rfl | hc2
    · decide
    rcases List.mem_append.mp hc2 with hc3 | hc4
    · exact hplt c hc3
    rcases List.mem_append.mp hc4 with hc5 | hc6
    · exact (by decide : ∀ x ∈ (":Envelope>" : String).data, x ≠ '<') c hc5
    · exact ht c hc6
  unfold lastCloseRest
  rw [hrest]
  dsimp only
  exact closeAt_eval pre trailL

theorem declAt_xmlDecl (rest : List Char) :
    declAt (("<?xml version=\"1.0\"?>" : String).data ++ ('<' :: rest))
      = some ('<' :: rest) := by
  show declAt ('<' :: '?' :: (("xml version=\"1.0\"" : String).data
      ++ ('?' :: '>' :: '<' :: rest))) = some ('<' :: rest)
  unfold declAt
  rw [litPrefixRest_ltQm]
  dsimp only
  rw [dropWhile_append_all _
    (by decide : ∀ c ∈ ("xml version=\"1.0\"" : String).data,
      (fun c => decide (c ≠ '?')) c = true)]
  rw [List.dropWhile_cons]
  simp only [show (decide (('?' : Char) ≠ '?')) = false from by decide,
    Bool.false_eq_true, if_false]
  rw [litPrefixRest_qmGt]
  dsimp only
  rw [List.dropWhile_cons]
  simp [show jsWs '<' = false from by decide]

theorem coreAt_eval {p M trailL : List Char}
    (hpcolon : ∀ c ∈ p, c ≠ ':') (hplt : ∀ c ∈ p, c ≠ '<')
    (ht : ∀ c ∈ trailL, c ≠ '<') :
    coreAt ('<' :: (p ++ ((":Envelope>" : String).data
        ++ (M ++ ('<' :: '/' :: (p ++ ((":Envelope>" : String).data ++ trailL)))))))
      = some trailL := by
  unfold coreAt
  rw [litPrefixRest_lt]
  dsimp only
  have hpcolonB : ∀ c ∈ p, (fun c => decide (c ≠ ':')) c = true := by
    intro c hc
    simpa using hpcolon c hc
  rw [dropWhile_append_all _ hpcolonB]
  rw [show ((":Envelope>" : String).data
        ++ (M ++ ('<' :: '/' :: (p ++ ((":Envelope>" : String).data ++ trailL)))))
      = ':' :: (("Envelope>" : String).data
        ++ (M ++ ('<' :: '/' :: (p ++ ((":Envelope>" : String).data ++ trailL))))) from rfl]
  rw [List.dropWhile_cons]
  simp only [show (decide ((':' : Char) ≠ ':')) = false from by decide,
    Bool.false_eq_true, if_false]
  rw [show (':' :: (("Envelope>" : String).data
        ++ (M ++ ('<' :: '/' :: (p ++ ((":Envelope>" : String).data ++ trailL))))))
      = (":Envelope" : String).data
        ++ ('>' :: (M ++ ('<' :: '/' :: (p ++ ((":Envelope>" : String).data ++ trailL)))))
      from rfl]
  rw [ciPrefix_matches_append _ (by decide : ciPrefix openTagPat
    (":Envelope" : String).data = some [])]
  dsimp only
  rw [show ('>' :: (M ++ ('<' :: '/' :: (p ++ ((":Envelope>" : String).data ++ trailL)))))
      = ('>' :: M) ++ ('<' :: '/' :: (p ++ ((":Envelope>" : String).data ++ trailL)))
      from rfl]
  rw [takeWhile_append_all _ hpcolonB]
  simp only [List.cons_append, List.takeWhile_cons,
    show (decide ((':' : Char) ≠ ':')) = false from by decide,
    Bool.false_eq_true, if_false, List.append_nil]
  exact lastCloseRest_extend ('>' :: M) (lastCloseRest_close hplt ht)

theorem matchAt_none_head {c : Char} (hc : c ≠ '<') (l : List Char) :
    matchAt (c :: l) = none := by
  have hdecl : declAt (c :: l) = none := by
    unfold declAt
    have h1 : litPrefixRest "<?".data (c :: l) = none := by
      show litPrefixRest ('<' :: '?' :: []) (c :: l) = none
      simp [litPrefixRest, Ne.symm hc]
    rw [h1]
  have hcore : coreAt (c :: l) = none := by
    unfold coreAt
    have h1 : litPrefixRest "<".data (c :: l) = none := by
      show litPrefixRest ('<' :: []) (c :: l) = none
      simp [litPrefixRest, Ne.symm hc]
    rw [h1]
  unfold matchAt
  rw [hdecl]
  dsimp only
  exact hcore

theorem findFrom_skip {junkL R : List Char} (hj : ∀ c ∈ junkL, c ≠ '<') :
    findFrom (junkL ++ R) = findFrom R := by
  induction junkL with
  | nil => rfl
  | cons c cs ih =>
    have hstep : findFrom (c :: (cs ++ R)) = findFrom (cs ++ R) := by
      conv_lhs => unfold findFrom
      rw [matchAt_none_head (hj c (List.mem_cons_self _ _))]
    rw [List.cons_append, hstep]
    exact ih (fun x hx => hj x (List.mem_cons_of_mem _ hx))

theorem findFrom_pos {l r : List Char} (hne : l ≠ []) (h : matchAt l = some r) :
    findFrom l = some (l, r) := by
  cases l with
  | nil => exact absurd rfl hne
  | cons c cs =>
    unfold findFrom
    rw [h]

theorem takeLeft (a b : List Char) : (a ++ b).take a.length = a := by
  induction a with
  | nil => rfl
  | cons c cs ih => simp [List.take_succ_cons, ih]

/-- C6: a body of the form noise, then an XML declaration, then a
namespace-prefixed `Envelope` open tag, arbitrary envelope content, the
matching close tag and trailing noise is normalized by `handleResponse`
to exactly the substring from the declaration through the close tag.
`junk` and `trail` are `<`-free (so they contain no tags at all), the
prefix contains no `:` or `<`, `mid` is arbitrary, and the body contains
no comment opener (comment blocks are removed before matching). -/
theorem c6_envelope_extraction (p junk mid trail : String)
    (hpc : ∀ c ∈ p.data, c ≠ ':')
    (hplt : ∀ c ∈ p.data, c ≠ '<')
    (hj : ∀ c ∈ junk.data, c ≠ '<')
    (ht : ∀ c ∈ trail.data, c ≠ '<')
    (hcm : splitFirstAt "<!--".data
        (junk ++ "<?xml version=\"1.0\"?>" ++ "<" ++ p ++ ":Envelope>" ++ mid
          ++ "</" ++ p ++ ":Envelope>" ++ trail).data = none) :
    handleResponse (junk ++ "<?xml version=\"1.0\"?>" ++ "<" ++ p ++ ":Envelope>"
        ++ mid ++ "</" ++ p ++ ":Envelope>" ++ trail)
      = "<?xml version=\"1.0\"?>" ++ "<" ++ p ++ ":Envelope>" ++ mid
        ++ "</" ++ p ++ ":Envelope>" := by
  have hbody : (junk ++ "<?xml version=\"1.0\"?>" ++ "<" ++ p ++ ":Envelope>" ++ mid
        ++ "</" ++ p ++ ":Envelope>" ++ trail).data
      = junk.data ++ (("<?xml version=\"1.0\"?>" : String).data
        ++ ('<' :: (p.data ++ ((":Envelope>" : String).data
          ++ (mid.data ++ ('<' :: '/' :: (p.data
            ++ ((":Envelope>" : String).data ++ trail.data)))))))) := by
    simp [String.data_append, List.append_assoc,
      show ("<" : String).data = ['<'] from rfl,
      show ("</" : String).data = ['<', '/'] from rfl]
  have hmatch : matchAt (("<?xml version=\"1.0\"?>" : String).data
      ++ ('<' :: (p.data ++ ((":Envelope>" : String).data
        ++ (mid.data ++ ('<' :: '/' :: (p.data
          ++ ((":Envelope>" : String).data ++ trail.data))))))))
      = some trail.data := by
    unfold matchAt
    rw [declAt_xmlDecl]
    dsimp only
    rw [coreAt_eval hpc hplt ht]
  have hfindR : findFrom (("<?xml version=\"1.0\"?>" : String).data
      ++ ('<' :: (p.data ++ ((":Envelope>" : String).data
        ++ (mid.data ++ ('<' :: '/' :: (p.data
          ++ ((":Envelope>" : String).data ++ trail.data))))))))
      = some ((("<?xml version=\"1.0\"?>" : String).data
        ++ ('<' :: (p.data ++ ((":Envelope>" : String).data
          ++ (mid.data ++ ('<' :: '/' :: (p.data
            ++ ((":Envelope>" : String).data ++ trail.data)))))))), trail.data) := by
    refine findFrom_pos ?_ hmatch
    intro heq
    have hlenc := congrArg List.length heq
    have hlen : (("<?xml version=\"1.0\"?>" : String).data).length = 21 := rfl
    simp only [List.length_append, hlen, List.length_cons, List.length_nil] at hlenc
    omega
  have hstripped : removeFirstComment
      ((junk ++ "<?xml version=\"1.0\"?>" ++ "<" ++ p ++ ":Envelope>" ++ mid
        ++ "</" ++ p ++ ":Envelope>" ++ trail).data)
      = (junk ++ "<?xml version=\"1.0\"?>" ++ "<" ++ p ++ ":Envelope>" ++ mid
        ++ "</" ++ p ++ ":Envelope>" ++ trail).data := by
    unfold removeFirstComment
    rw [removeComment_none hcm]
  unfold handleResponse
  rw [hstripped, hbody]
  unfold findMatch
  rw [findFrom_skip hj, hfindR]
  have htake : (("<?xml version=\"1.0\"?>" : String).data
      ++ ('<' :: (p.data ++ ((":Envelope>" : String).data
        ++ (mid.data ++ ('<' :: '/' :: (p.data
          ++ ((":Envelope>" : String).data ++ trail.data)))))))).take
      ((("<?xml version=\"1.0\"?>" : String).data
        ++ ('<' :: (p.data ++ ((":Envelope>" : String).data
          ++ (mid.data ++ ('<' :: '/' :: (p.data
            ++ ((":Envelope>" : String).data ++ trail.data)))))))).length
        - trail.data.length)
      = ("<?xml version=\"1.0\"?>" : String).data
        ++ ('<' :: (p.data ++ ((":Envelope>" : String).data
          ++ (mid.data ++ ('<' :: '/' :: (p.data
            ++ ((":Envelope>" : String).data))))))) := by
    have hsplit2 : ("<?xml version=\"1.0\"?>" : String).data
        ++ ('<' :: (p.data ++ ((":Envelope>" : String).data
          ++ (mid.data ++ ('<' :: '/' :: (p.data
            ++ ((":Envelope>" : String).data ++ trail.data)))))))
        = (("<?xml version=\"1.0\"?>" : String).data
          ++ ('<' :: (p.data ++ ((":Envelope>" : String).data
            ++ (mid.data ++ ('<' :: '/' :: (p.data
              ++ ((":Envelope>" : String).data)))))))) ++ trail.data := by
      simp [List.append_assoc]
    rw [hsplit2]
    rw [show ((("<?xml version=\"1.0\"?>" : String).data
        ++ ('<' :: (p.data ++ ((":Envelope>" : String).data
          ++ (mid.data ++ ('<' :: '/' :: (p.data
            ++ ((":Envelope>" : String).data)))))))) ++ trail.data).length
          - trail.data.length
        = (("<?xml version=\"1.0\"?>" : String).data
          ++ ('<' :: (p.data ++ ((":Envelope>" : String).data
            ++ (mid.data ++ ('<' :: '/' :: (p.data
              ++ ((":Envelope>" : String).data)))))))).length from by
      simp [List.length_append]
      omega]
    exact takeLeft _ _
  show String.mk (List.take
      (((("<?xml version=\"1.0\"?>" : String).data
        ++ ('<' :: (p.data ++ ((":Envelope>" : String).data
          ++ (mid.data ++ ('<' :: '/' :: (p.data
            ++ ((":Envelope>" : String).data ++ trail.data)))))))).length)
        - trail.data.length)
      (("<?xml version=\"1.0\"?>" : String).data
        ++ ('<' :: (p.data ++ ((":Envelope>" : String).data
          ++ (mid.data ++ ('<' :: '/' :: (p.data
            ++ ((":Envelope>" : String).data ++ trail.data)))))))))
    = "<?xml version=\"1.0\"?>" ++ "<" ++ p ++ ":Envelope>" ++ mid
      ++ "</" ++ p ++ ":Envelope>"
  rw [htake]
  apply String.ext
  show ("<?xml version=\"1.0\"?>" : String).data
      ++ ('<' :: (p.data ++ ((":Envelope>" : String).data
        ++ (mid.data ++ ('<' :: '/' :: (p.data
          ++ ((":Envelope>" : String).data)))))))
    = ("<?xml version=\"1.0\"?>" ++ "<" ++ p ++ ":Envelope>" ++ mid
        ++ "</" ++ p ++ ":Envelope>").data
  simp [String.data_append, List.append_assoc,
    show ("<" : String).data = ['<'] from rfl,
    show ("</" : String).data = ['<', '/'] from rfl]

/-- Witness for C6: the concrete body of the specification example,
`junk<?xml version="1.0"?><soap:Envelope>...</soap:Envelope>trailing`,
normalizes to `<?xml version="1.0"?><soap:Envelope>...</soap:Envelope>`. -/
theorem c6_envelope_extraction_witness :
    (∀ c ∈ ("soap" : String).data, c ≠ ':') ∧
    (∀ c ∈ ("soap" : String).data, c ≠ '<') ∧
    (∀ c ∈ ("junk" : String).data, c ≠ '<') ∧
    (∀ c ∈ ("trailing" : String).data, c ≠ '<') ∧
    splitFirstAt "<!--".data
        ("junk" ++ "<?xml version=\"1.0\"?>" ++ "<" ++ "soap" ++ ":Envelope>"
          ++ "..." ++ "</" ++ "soap" ++ ":Envelope>" ++ "trailing").data = none ∧
    handleResponse
        "junk<?xml version=\"1.0\"?><soap:Envelope>...</soap:Envelope>trailing"
      = "<?xml version=\"1.0\"?><soap:Envelope>...</soap:Envelope>" :=
  ⟨by decide, by decide, by decide, by decide, by decide,
    c6_envelope_extraction "soap" "junk" "..." "trailing"
      (by decide) (by decide) (by decide) (by decide) (by decide)⟩

end Soap
